import Mathlib

set_option maxRecDepth 8192

/-!
Verification development for the trace ingestion and gantt-timeline core of
`create_gantt_chart.py` (class `GanttChartGenerator`).

Modelling conventions of the shallow embedding:

* A decoded JSON-line is an `Event` with the envelope fields `etype`
  (Python `event['type']`), `event` (Python `event['event']`) and a payload
  `data`.  The payload dictionary is embedded as a structure of `Option`
  fields: `data.f = none` means the key `f` is absent.  Python `data['f']`
  (a `KeyError` when absent) is embedded as a `match` whose `none` branch
  reports failure; Python `data.get('f', d)` is `data.f.getD d` and
  `data.get('f')` is `data.f`.
* `requestText` / `responseText` are embedded in their final string form
  (the source stringifies dict/list payloads with `json.dumps` before
  storing them); `args` is embedded as an association list.
* Timestamps are epoch milliseconds, embedded as `Int` (the source converts
  them to `datetime` only for plotting; the conversion `ms ↦ fromtimestamp
  (ms / 1000)` is strictly monotone on the millisecond values involved, so
  ordering comparisons are carried out on the raw integers).
* Python dictionaries (`llm_calls`, `tool_calls`, …) preserve insertion
  order; they are embedded as association lists: `d[k] = v` appends on a
  fresh key and overwrites in place on an existing key.
* A Python exception escaping `_process_*` is modelled by returning the
  partially mutated state together with `false`; mutations performed before
  the raising access are kept, exactly as in Python.  `load_trace_data`
  catches any such exception in its outer `except` and stops, returning
  `False`; on normal completion it returns `len(self.events) > 0`.
-/

structure EventData where
  id : Option String := none
  model : Option String := none
  promptId : Option String := none
  status : Option String := none
  startTime : Option Int := none
  endTime : Option Int := none
  duration : Option Int := none
  totalTokens : Option Int := none
  requestText : Option String := none
  responseText : Option String := none
  error : Option String := none
  toolName : Option String := none
  callId : Option String := none
  args : Option (List (String × String)) := none
  executionStartTime : Option Int := none
  executionEndTime : Option Int := none
  executionDuration : Option Int := none
  pureExecutionDuration : Option Int := none
  toolCallId : Option String := none
  confirmationType : Option String := none
  timestamp : Option Int := none
  textCount : Option Int := none
  vectorDimensions : Option Int := none
  requestTexts : Option (List String) := none
  deriving DecidableEq

structure Event where
  etype : String
  event : String
  data : EventData
  deriving DecidableEq

/-- The record built by `_process_user_confirmation_event` (lines 207-216). -/
structure Confirmation where
  id : String
  toolCallId : String
  toolName : String
  confirmationType : String
  timestamp : Int
  event : String
  callId : String
  promptId : String
  deriving DecidableEq

/-- The record stored in `self.llm_calls` (lines 66-79). -/
structure LlmCall where
  id : String
  model : String
  promptId : String
  status : String
  start_time : Option Int
  end_time : Option Int
  duration : Option Int
  tokens : Int
  error : String
  request_text : String
  response_text : String
  events : List Event
  deriving DecidableEq

/-- The record stored in `self.tool_calls` (lines 120-135).  The
`confirmations` key is absent from the creation literal and is added lazily
by `_process_user_confirmation_event`; key absence is `none`. -/
structure ToolCall where
  id : String
  toolName : String
  callId : String
  promptId : String
  status : String
  start_time : Option Int
  end_time : Option Int
  execution_start_time : Option Int
  execution_end_time : Option Int
  duration : Option Int
  execution_duration : Option Int
  args : List (String × String)
  error : String
  events : List Event
  confirmations : Option (List Confirmation)
  deriving DecidableEq

/-- The record stored in `self.embedding_calls` (lines 165-178). -/
structure EmbeddingCall where
  id : String
  model : String
  promptId : String
  status : String
  start_time : Option Int
  end_time : Option Int
  duration : Option Int
  textCount : Int
  vectorDimensions : Option Int
  requestTexts : List String
  error : Option String
  events : List Event
  deriving DecidableEq

/-- The mutable fields of `GanttChartGenerator` (lines 19-23). -/
structure State where
  events : List Event
  llm_calls : List (String × LlmCall)
  tool_calls : List (String × ToolCall)
  embedding_calls : List (String × EmbeddingCall)
  user_confirmations : List (String × Confirmation)
  deriving DecidableEq

def initState : State :=
  { events := [], llm_calls := [], tool_calls := [],
    embedding_calls := [], user_confirmations := [] }

/-- Ordered-dictionary lookup: `k in d` / `d[k]`. -/
def lookupA {α : Type} (k : String) : List (String × α) → Option α
  | [] => none
  | (k', v) :: rest => if k' = k then some v else lookupA k rest

/-- In-place mutation of the record stored under an existing key
(`d[k]['f'] = …` on a record aliased by `call_info = d[k]`). -/
def updateA {α : Type} (k : String) (f : α → α) : List (String × α) → List (String × α)
  | [] => []
  | (k', v) :: rest => if k' = k then (k', f v) :: rest else (k', v) :: updateA k f rest

/-- Ordered-dictionary assignment `d[k] = v`: overwrite in place, or append
on a fresh key. -/
def setA {α : Type} (k : String) (v : α) : List (String × α) → List (String × α)
  | [] => [(k, v)]
  | (k', w) :: rest => if k' = k then (k', v) :: rest else (k', w) :: setA k v rest

/-- Creation literal of `_process_llm_event`, lines 66-79 (the two
required accesses `data['model']` and `data['status']` are passed in
already checked). -/
def llmCreate (call_id m st : String) (d : EventData) : LlmCall :=
  { id := call_id, model := m, promptId := d.promptId.getD "", status := st,
    start_time := none, end_time := none, duration := none,
    tokens := d.totalTokens.getD 0, error := d.error.getD "",
    request_text := "", response_text := "", events := [] }

/-- Lines 89-112 of `_process_llm_event`: the fused terminal update, given
the checked value `st` of `data['startTime']`. -/
def llmTerminalUpdate (e : Event) (st : Int) (c : LlmCall) : LlmCall :=
  let c := { c with start_time := some st, end_time := some (e.data.endTime.getD st),
                    duration := some (e.data.duration.getD 0),
                    tokens := e.data.totalTokens.getD 0 }
  let c := match e.data.requestText with
    | some r => { c with request_text := r }
    | none => c
  let c := match e.data.responseText with
    | some r => { c with response_text := r }
    | none => c
  match e.data.error with
  | some err => if err = "" then c else { c with error := err }
  | none => c

/-- Lines 82-112 of `_process_llm_event` (everything after the
creation-if-absent block). -/
def llmUpdate (call_id : String) (e : Event) (s : State) : State × Bool :=
  let s := { s with llm_calls := updateA call_id (fun c => { c with events := c.events ++ [e] }) s.llm_calls }
  match e.data.status with
  | none => (s, false)
  | some st =>
    let s := { s with llm_calls := updateA call_id (fun c => { c with status := st }) s.llm_calls }
    if e.event = "completed" ∨ e.event = "error" then
      match e.data.startTime with
      | none => (s, false)
      | some t =>
        ({ s with llm_calls := updateA call_id (fun c => llmTerminalUpdate e t c) s.llm_calls }, true)
    else (s, true)

/-- `_process_llm_event` (lines 60-112). -/
def process_llm_event (e : Event) (s : State) : State × Bool :=
  match e.data.id with
  | none => (s, false)
  | some call_id =>
    match lookupA call_id s.llm_calls with
    | none =>
      match e.data.model, e.data.status with
      | some m, some st =>
        llmUpdate call_id e
          { s with llm_calls := s.llm_calls ++ [(call_id, llmCreate call_id m st e.data)] }
      | _, _ => (s, false)
    | some _ => llmUpdate call_id e s

/-- Creation literal of `_process_tool_event`, lines 120-135. -/
def toolCreate (call_id tn st : String) (d : EventData) : ToolCall :=
  { id := call_id, toolName := tn, callId := d.callId.getD "",
    promptId := d.promptId.getD "", status := st,
    start_time := none, end_time := none,
    execution_start_time := none, execution_end_time := none,
    duration := none, execution_duration := none,
    args := d.args.getD [], error := d.error.getD "",
    events := [], confirmations := none }

/-- Lines 145-157 of `_process_tool_event`: the fused terminal update, given
the checked value `st` of `data['startTime']`. -/
def toolTerminalUpdate (e : Event) (st : Int) (c : ToolCall) : ToolCall :=
  let c := { c with start_time := some st, end_time := some (e.data.endTime.getD st),
                    duration := some (e.data.duration.getD 0),
                    args := e.data.args.getD [],
                    execution_start_time := e.data.executionStartTime,
                    execution_end_time := e.data.executionEndTime,
                    execution_duration :=
                      some (e.data.executionDuration.getD (e.data.pureExecutionDuration.getD 0)) }
  match e.data.error with
  | some err => if err = "" then c else { c with error := err }
  | none => c

/-- Lines 138-157 of `_process_tool_event` (everything after the
creation-if-absent block). -/
def toolUpdate (call_id : String) (e : Event) (s : State) : State × Bool :=
  let s := { s with tool_calls := updateA call_id (fun c => { c with events := c.events ++ [e] }) s.tool_calls }
  match e.data.status with
  | none => (s, false)
  | some st =>
    let s := { s with tool_calls := updateA call_id (fun c => { c with status := st }) s.tool_calls }
    if e.event = "completed" ∨ e.event = "cancelled" ∨ e.event = "error" then
      match e.data.startTime with
      | none => (s, false)
      | some t =>
        ({ s with tool_calls := updateA call_id (fun c => toolTerminalUpdate e t c) s.tool_calls }, true)
    else (s, true)

/-- `_process_tool_event` (lines 114-157). -/
def process_tool_event (e : Event) (s : State) : State × Bool :=
  match e.data.id with
  | none => (s, false)
  | some call_id =>
    match lookupA call_id s.tool_calls with
    | none =>
      match e.data.toolName, e.data.status with
      | some tn, some st =>
        toolUpdate call_id e
          { s with tool_calls := s.tool_calls ++ [(call_id, toolCreate call_id tn st e.data)] }
      | _, _ => (s, false)
    | some _ => toolUpdate call_id e s

/-- Creation literal of `_process_embedding_event`, lines 165-178. -/
def embCreate (call_id m st : String) (d : EventData) : EmbeddingCall :=
  { id := call_id, model := m, promptId := d.promptId.getD "", status := st,
    start_time := none, end_time := none, duration := none,
    textCount := d.textCount.getD 0, vectorDimensions := d.vectorDimensions,
    requestTexts := d.requestTexts.getD [], error := none, events := [] }

/-- Lines 186-198 of `_process_embedding_event`. -/
def embTerminalUpdate (e : Event) (st : Int) (c : EmbeddingCall) : EmbeddingCall :=
  let c := { c with start_time := some st, end_time := some (e.data.endTime.getD st),
                    duration := some (e.data.duration.getD 0),
                    textCount := e.data.textCount.getD 0,
                    requestTexts := e.data.requestTexts.getD [],
                    vectorDimensions := e.data.vectorDimensions }
  match e.data.error with
  | some err => if err = "" then c else { c with error := some err }
  | none => c

/-- Lines 180-198 of `_process_embedding_event` (after creation). -/
def embUpdate (call_id : String) (e : Event) (s : State) : State × Bool :=
  let s := { s with embedding_calls := updateA call_id (fun c => { c with events := c.events ++ [e] }) s.embedding_calls }
  match e.data.status with
  | none => (s, false)
  | some st =>
    let s := { s with embedding_calls := updateA call_id (fun c => { c with status := st }) s.embedding_calls }
    if e.event = "completed" ∨ e.event = "error" then
      match e.data.startTime with
      | none => (s, false)
      | some t =>
        ({ s with embedding_calls := updateA call_id (fun c => embTerminalUpdate e t c) s.embedding_calls }, true)
    else (s, true)

/-- `_process_embedding_event` (lines 159-198). -/
def process_embedding_event (e : Event) (s : State) : State × Bool :=
  match e.data.id with
  | none => (s, false)
  | some call_id =>
    match lookupA call_id s.embedding_calls with
    | none =>
      match e.data.model, e.data.status with
      | some m, some st =>
        embUpdate call_id e
          { s with embedding_calls := s.embedding_calls ++ [(call_id, embCreate call_id m st e.data)] }
      | _, _ => (s, false)
    | some _ => embUpdate call_id e s

/-- `_process_user_confirmation_event` (lines 200-222).  The confirmation is
always recorded in `user_confirmations`; it is appended to the tool call's
`confirmations` only when the tool record already exists at this moment —
there is no later re-delivery. -/
def process_user_confirmation_event (e : Event) (s : State) : State × Bool :=
  match e.data.id, e.data.toolCallId with
  | some confirmation_id, some tool_call_id =>
    match e.data.toolName, e.data.confirmationType, e.data.timestamp with
    | some tn, some ct, some ts =>
      let rec0 : Confirmation :=
        { id := confirmation_id, toolCallId := tool_call_id, toolName := tn,
          confirmationType := ct, timestamp := ts, event := e.event,
          callId := e.data.callId.getD "", promptId := e.data.promptId.getD "" }
      let s := { s with user_confirmations := setA confirmation_id rec0 s.user_confirmations }
      if (lookupA tool_call_id s.tool_calls).isSome then
        let tc := updateA tool_call_id
          (fun c => { c with confirmations := some ((c.confirmations.getD []) ++ [rec0]) })
          s.tool_calls
        ({ s with tool_calls := tc }, true)
      else (s, true)
    | _, _, _ => (s, false)
  | _, _ => (s, false)

/-- The event dispatch of `load_trace_data`, lines 38-45.  An unrecognised
`type` is silently ignored. -/
def process_event (e : Event) (s : State) : State × Bool :=
  if e.etype = "llm_call" then process_llm_event e s
  else if e.etype = "tool_call" then process_tool_event e s
  else if e.etype = "embedding_call" then process_embedding_event e s
  else if e.etype = "user_confirmation" then process_user_confirmation_event e s
  else (s, true)

/-- The per-line loop of `load_trace_data` (lines 29-49) over already decoded
events: each event is appended to `self.events` before being dispatched; the
first escaping exception stops the loop (outer `except Exception`). -/
def loadAux : State → List Event → State × Bool
  | s, [] => (s, true)
  | s, e :: rest =>
    let s1 := { s with events := s.events ++ [e] }
    match process_event e s1 with
    | (s2, true) => loadAux s2 rest
    | (s2, false) => (s2, false)

/-- `load_trace_data` (lines 25-58): on normal completion it returns
`len(self.events) > 0`; a caught exception returns `False`, keeping the
state mutated so far. -/
def load_trace_data (evs : List Event) : State × Bool :=
  let r := loadAux initState evs
  (r.1, r.2 && !r.1.events.isEmpty)

/-- Python truthiness of the `Optional[int]` timing fields: `None` and `0`
are falsy (`if not call['start_time'] or not call['end_time']: continue`). -/
def truthyInt : Option Int → Bool
  | none => false
  | some n => n ≠ 0

/-- `pat` is a leading run of `l` (character-level prefix test). -/
def leadMatch : List Char → List Char → Bool
  | [], _ => true
  | _ :: _, [] => false
  | a :: as, b :: bs => a = b && leadMatch as bs

/-- Worker for `replaceChars`: `skip > 0` means this character belongs to a
just-replaced occurrence and is consumed without output. -/
def replaceGo (pat rep : List Char) (skip : Nat) : List Char → List Char
  | [] => []
  | c :: rest =>
    match skip with
    | n + 1 => replaceGo pat rep n rest
    | 0 =>
      if leadMatch pat (c :: rest) && !pat.isEmpty then
        rep ++ replaceGo pat rep (pat.length - 1) rest
      else
        c :: replaceGo pat rep 0 rest

/-- Python `s.replace(pat, rep)` for a non-empty `pat`, on character lists:
every non-overlapping, leftmost occurrence is replaced. -/
def replaceChars (pat rep l : List Char) : List Char := replaceGo pat rep 0 l

def strReplace (s pat rep : String) : String :=
  ⟨replaceChars pat.data rep.data s.data⟩

/-- Python `str.title()` for the ASCII tool names involved: an alphabetic
character is upper-cased after a non-alphabetic character (or at the start)
and lower-cased otherwise. -/
def pyTitleChars : Bool → List Char → List Char
  | _, [] => []
  | prevAlpha, c :: rest =>
    if c.isAlpha then
      (if prevAlpha then c.toLower else c.toUpper) :: pyTitleChars true rest
    else c :: pyTitleChars false rest

def pyTitle (s : String) : String := ⟨pyTitleChars false s.data⟩

/-- One element of `gantt_data` (lines 448-458 / 540-550 / 620-630).  The
hover text and colour are presentation strings with no bearing on the
claims about ordering/eligibility and are not carried. -/
structure Segment where
  task : String
  start : Int
  finish : Int
  duration : Int
  typ : String
  status : String
  y : Nat
  deriving DecidableEq

/-- The LLM loop of `create_gantt_chart`, lines 303-459, restricted to the
fields of `gantt_data`: a record is skipped unless both instants are truthy. -/
def llmSeg (p : String × LlmCall) : Option Segment :=
  let call := p.2
  if truthyInt call.start_time && truthyInt call.end_time then
    some { task := "🤖 LLM-" ++ strReplace call.model "gemini-" "",
           start := call.start_time.getD 0, finish := call.end_time.getD 0,
           duration := call.duration.getD 0,
           typ := "LLM", status := call.status, y := 0 }
  else none

/-- The tool loop of `create_gantt_chart`, lines 462-551. -/
def toolSeg (p : String × ToolCall) : Option Segment :=
  let call := p.2
  if truthyInt call.start_time && truthyInt call.end_time then
    some { task := "🔧 " ++ pyTitle (strReplace call.toolName "_" " "),
           start := call.start_time.getD 0, finish := call.end_time.getD 0,
           duration := call.duration.getD 0,
           typ := "Tool", status := call.status, y := 0 }
  else none

/-- The embedding loop of `create_gantt_chart`, lines 554-631. -/
def embSeg (p : String × EmbeddingCall) : Option Segment :=
  let call := p.2
  if truthyInt call.start_time && truthyInt call.end_time then
    some { task := "🔗 Embedding-" ++ strReplace call.model "gemini-embedding-" "",
           start := call.start_time.getD 0, finish := call.end_time.getD 0,
           duration := call.duration.getD 0,
           typ := "Embedding", status := call.status, y := 0 }
  else none

/-- One step of a stable insertion sort on the `Start` key: the new element
is placed before the first element whose key is not smaller, so elements
with equal keys keep their original relative order — the behaviour of
Python's stable `list.sort(key=lambda x: x['Start'])` (line 634). -/
def insSeg (x : Segment) : List Segment → List Segment
  | [] => [x]
  | y :: ys => if y.start < x.start then y :: insSeg x ys else x :: y :: ys

def sortByStart : List Segment → List Segment
  | [] => []
  | x :: xs => insSeg x (sortByStart xs)

/-- `y_position` numbering while building, and the re-numbering loop
`for i, item in enumerate(gantt_data): item['Y'] = i` (lines 637-638). -/
def assignY : Nat → List Segment → List Segment
  | _, [] => []
  | i, seg :: rest => { seg with y := i } :: assignY (i + 1) rest

/-- The `gantt_data` list of `create_gantt_chart` at line 651, after the
three category loops (llm, then tool, then embedding, each in registry
insertion order), the stable sort on `Start` and the `Y` re-assignment.
The early `return fig` at line 293 fires only when no record has a truthy
instant, in which case all three loops contribute nothing anyway. -/
def ganttData (s : State) : List Segment :=
  assignY 0 (sortByStart (assignY 0
    (s.llm_calls.filterMap llmSeg ++ s.tool_calls.filterMap toolSeg
      ++ s.embedding_calls.filterMap embSeg)))

/-- Python `'functionCall' in response_text` (substring test, line 263). -/
def hasSubstr (needle : List Char) : List Char → Bool
  | [] => needle.isEmpty
  | c :: rest => leadMatch needle (c :: rest) || hasSubstr needle rest

def containsFunctionCall (s : String) : Bool :=
  hasSubstr "functionCall".data s.data

/-- `_analyze_missing_events` (lines 257-274), returning the numbers it
reports — `(llm_with_function_calls, tool_calls_count, missing_count)` —
when the anomaly fires, and `none` otherwise. -/
def analyze_missing_events (s : State) : Option (Nat × Nat × Nat) :=
  let llm_with_function_calls :=
    s.llm_calls.foldl (fun acc p => if containsFunctionCall p.2.response_text then acc + 1 else acc) 0
  let tool_calls_count := s.tool_calls.length
  if tool_calls_count < llm_with_function_calls then
    some (llm_with_function_calls, tool_calls_count, llm_with_function_calls - tool_calls_count)
  else none

/-- The per-category totals printed by `print_summary` (lines 817-819). -/
def summaryLlmCount (s : State) : Nat := s.llm_calls.length

def summaryToolCount (s : State) : Nat := s.tool_calls.length

def summaryEmbeddingCount (s : State) : Nat := s.embedding_calls.length

/-! Concrete input events used by the claim theorems, witnesses and
counterexamples. -/

/-- A confirmation event referencing tool call `t9`, before `t9` exists. -/
def evConf1 : Event :=
  { etype := "user_confirmation", event := "approval_requested",
    data := { id := some "c1", toolCallId := some "t9", toolName := some "grep",
              confirmationType := some "info", timestamp := some 5 } }

/-- A fused-protocol completed event for tool call `t9`. -/
def evTool9 : Event :=
  { etype := "tool_call", event := "completed",
    data := { id := some "t9", toolName := some "grep", status := some "completed",
              startTime := some 1000, endTime := some 1500, duration := some 500 } }

/-- An llm event whose payload lacks the required `id` field. -/
def evLlmNoId : Event :=
  { etype := "llm_call", event := "completed",
    data := { model := some "gemini-2.5-pro", status := some "completed",
              startTime := some 1 } }

/-- The split-protocol start event of the C3 scenario, exactly as written
in the claim. -/
def evLlmStart : Event :=
  { etype := "llm_call", event := "start",
    data := { id := some "m1", startTime := some 0 } }

/-- The split-protocol end event of the C3 scenario, exactly as written in
the claim. -/
def evLlmEnd : Event :=
  { etype := "llm_call", event := "end",
    data := { id := some "m1", endTime := some 200, duration := some 200,
              totalTokens := some 50 } }

/-- The C3 start event enriched with the `model` and `status` fields the
code requires. -/
def evLlmStartFull : Event :=
  { etype := "llm_call", event := "start",
    data := { id := some "m1", startTime := some 0, model := some "gemini-2.5-pro",
              status := some "started" } }

/-- The C3 end event enriched with the `status` field the code requires. -/
def evLlmEndFull : Event :=
  { etype := "llm_call", event := "end",
    data := { id := some "m1", endTime := some 200, duration := some 200,
              totalTokens := some 50, status := some "completed" } }

/-- First fused terminal event for llm call `x`, carrying duration 500 and
50 tokens. -/
def evLlm4a : Event :=
  { etype := "llm_call", event := "completed",
    data := { id := some "x", model := some "gemini-2.5-pro", status := some "completed",
              startTime := some 100, endTime := some 200, duration := some 500,
              totalTokens := some 50 } }

/-- Second fused terminal event for llm call `x`, with `endTime`,
`duration` and `totalTokens` absent from the payload. -/
def evLlm4b : Event :=
  { etype := "llm_call", event := "completed",
    data := { id := some "x", status := some "completed", startTime := some 100 } }

/-- Tool event for id `"b"`, first in the stream; same start instant as
`evToolA`. -/
def evToolB : Event :=
  { etype := "tool_call", event := "completed",
    data := { id := some "b", toolName := some "bb", status := some "completed",
              startTime := some 1000, endTime := some 2000, duration := some 100 } }

/-- Tool event for id `"a"`, second in the stream; same start instant as
`evToolB`. -/
def evToolA : Event :=
  { etype := "tool_call", event := "completed",
    data := { id := some "a", toolName := some "aa", status := some "completed",
              startTime := some 1000, endTime := some 2000, duration := some 200 } }

/-- The C7 scenario event exactly as written in the claim: its payload has
no `status` field. -/
def evTool1 : Event :=
  { etype := "tool_call", event := "completed",
    data := { id := some "t1", toolName := some "grep",
              startTime := some 1000, endTime := some 1500, duration := some 500 } }

/-- The C7 scenario event enriched with the `status` field the code
requires. -/
def evTool1Status : Event :=
  { etype := "tool_call", event := "completed",
    data := { id := some "t1", toolName := some "grep", status := some "completed",
              startTime := some 1000, endTime := some 1500, duration := some 500 } }

/-- A well-formed llm start event for id `"a"`. -/
def evLlmA : Event :=
  { etype := "llm_call", event := "start",
    data := { id := some "a", model := some "gemini-2.5-pro", status := some "started" } }

/-- A well-formed llm completed event for id `"bb"`. -/
def evLlmB : Event :=
  { etype := "llm_call", event := "completed",
    data := { id := some "bb", model := some "gemini-2.5-flash", status := some "completed",
              startTime := some 10, endTime := some 20, duration := some 10,
              totalTokens := some 7 } }

/-! Association-list lemmas. -/

theorem lookupA_updateA {α : Type} (k x : String) (f : α → α) (l : List (String × α)) :
    lookupA x (updateA k f l) = if k = x then (lookupA x l).map f else lookupA x l := by
  induction l with
  | nil => simp [lookupA, updateA]
  | cons p rest ih =>
    obtain ⟨k', v⟩ := p
    by_cases hk : k' = k
    · subst hk
      by_cases hx : k' = x
      · subst hx
        simp [lookupA, updateA]
      · simp [lookupA, updateA, hx, ih]
    · by_cases hx : k' = x
      · subst hx
        have hkx : ¬(k = k') := fun h => hk h.symm
        simp [lookupA, updateA, hk, hkx]
      · simp [lookupA, updateA, hk, hx, ih]

theorem lookupA_append_single {α : Type} (x k : String) (v : α) (l : List (String × α)) :
    lookupA x (l ++ [(k, v)]) =
      match lookupA x l with
      | some w => some w
      | none => if k = x then some v else none := by
  induction l with
  | nil => simp [lookupA]
  | cons p rest ih =>
    obtain ⟨k', w⟩ := p
    by_cases hx : k' = x
    · simp [lookupA, hx]
    · simp [lookupA, hx, ih]

/-- The per-record effect of `llmUpdate` on the record stored under the
event's id, covering the failure points as well (a missing `status` or
`startTime` raises after the mutations so far, which are kept). -/
def llmApply (e : Event) (c : LlmCall) : LlmCall :=
  let c := { c with events := c.events ++ [e] }
  match e.data.status with
  | none => c
  | some st =>
    let c := { c with status := st }
    if e.event = "completed" ∨ e.event = "error" then
      match e.data.startTime with
      | none => c
      | some t => llmTerminalUpdate e t c
    else c

/-- The per-record effect of `toolUpdate`. -/
def toolApply (e : Event) (c : ToolCall) : ToolCall :=
  let c := { c with events := c.events ++ [e] }
  match e.data.status with
  | none => c
  | some st =>
    let c := { c with status := st }
    if e.event = "completed" ∨ e.event = "cancelled" ∨ e.event = "error" then
      match e.data.startTime with
      | none => c
      | some t => toolTerminalUpdate e t c
    else c

/-- The per-record effect of `embUpdate`. -/
def embApply (e : Event) (c : EmbeddingCall) : EmbeddingCall :=
  let c := { c with events := c.events ++ [e] }
  match e.data.status with
  | none => c
  | some st =>
    let c := { c with status := st }
    if e.event = "completed" ∨ e.event = "error" then
      match e.data.startTime with
      | none => c
      | some t => embTerminalUpdate e t c
    else c

/-- The per-record effect of a confirmation attach on its tool record. -/
def confApply (r0 : Confirmation) (c : ToolCall) : ToolCall :=
  { c with confirmations := some ((c.confirmations.getD []) ++ [r0]) }

/-- An llm event that carries every field `_process_llm_event` accesses with
a raising `data[...]` lookup, so that processing it cannot raise. -/
def WFllm (e : Event) : Prop :=
  e.etype = "llm_call" ∧ e.data.id.isSome = true ∧ e.data.model.isSome = true ∧
  e.data.status.isSome = true ∧
  ((e.event = "completed" ∨ e.event = "error") → e.data.startTime.isSome = true)

instance (e : Event) : Decidable (WFllm e) := by
  unfold WFllm
  infer_instance

/-- The action of one well-formed llm event on the (possibly absent) record
stored under its id: create-if-absent, then the `llmUpdate` mutations. -/
def llmAbs (e : Event) (r : Option LlmCall) : LlmCall :=
  llmApply e (r.getD
    (llmCreate (e.data.id.getD "") (e.data.model.getD "") (e.data.status.getD "") e.data))

/-- The call ids carried by the events of a stream. -/
def idsOf (evs : List Event) : List String := evs.filterMap (fun e => e.data.id)

/-- The record left in the llm registry by the single start event `evLlmA`. -/
def c6Rec : LlmCall :=
  { id := "a", model := "gemini-2.5-pro", promptId := "", status := "started",
    start_time := none, end_time := none, duration := none, tokens := 0,
    error := "", request_text := "", response_text := "", events := [evLlmA] }

/-- Invariant of the llm registry: a record none of whose recorded events
is a terminal (`completed`/`error`) phase has no resolved start instant. -/
def llmInvL (l : List (String × LlmCall)) : Prop :=
  ∀ x r, lookupA x l = some r →
    (∀ e ∈ r.events, ¬(e.event = "completed" ∨ e.event = "error")) →
    r.start_time = none

/-- Invariant of the tool registry (terminal phases are
`completed`/`cancelled`/`error`). -/
def toolInvL (l : List (String × ToolCall)) : Prop :=
  ∀ x r, lookupA x l = some r →
    (∀ e ∈ r.events, ¬(e.event = "completed" ∨ e.event = "cancelled" ∨ e.event = "error")) →
    r.start_time = none

/-- Invariant of the embedding registry. -/
def embInvL (l : List (String × EmbeddingCall)) : Prop :=
  ∀ x r, lookupA x l = some r →
    (∀ e ∈ r.events, ¬(e.event = "completed" ∨ e.event = "error")) →
    r.start_time = none

/-- Record with a zero start instant (model category). -/
def c10LlmRec : LlmCall :=
  { id := "L", model := "gemini-2.5-pro", promptId := "", status := "completed",
    start_time := some 0, end_time := some 1000, duration := some 0, tokens := 0,
    error := "", request_text := "", response_text := "", events := [] }

/-- Record with a zero end instant (tool category). -/
def c10ToolRec : ToolCall :=
  { id := "T", toolName := "grep", callId := "", promptId := "", status := "completed",
    start_time := some 1000, end_time := some 0, execution_start_time := none,
    execution_end_time := none, duration := some 0, execution_duration := some 0,
    args := [], error := "", events := [], confirmations := none }

/-- Record with a zero start instant (embedding category). -/
def c10EmbRec : EmbeddingCall :=
  { id := "E", model := "gemini-embedding-001", promptId := "", status := "completed",
    start_time := some 0, end_time := some 5, duration := some 5, textCount := 1,
    vectorDimensions := none, requestTexts := [], error := none, events := [] }

/-! Claim C1 -/

/-- C1 counterexample: in the stream `[evConf1, evTool9]` the confirmation
for tool call `t9` arrives first; after ingestion the record `t9` exists but
its `confirmations` sequence was never created (`none`), so a confirmation
arriving before the first event of its tool call is NOT delivered when the
tool record is created. -/
theorem c1_counterexample :
    ((lookupA "t9" (load_trace_data [evConf1, evTool9]).1.tool_calls).map
      (fun r => r.confirmations)) = some none := by decide

/-- C1 (amended): a confirmation event is linked to its tool call's
`confirmations` sequence exactly when the tool record already exists at the
moment the confirmation event is processed (appended at the end); when the
tool record does not exist yet, the tool registry is left unchanged and the
confirmation is only stored in `user_confirmations`, never re-delivered. -/
theorem c1_confirmation_attach (e : Event) (s : State) (cid tcid tn ct : String) (ts : Int)
    (h1 : e.etype = "user_confirmation") (h2 : e.data.id = some cid)
    (h3 : e.data.toolCallId = some tcid) (h4 : e.data.toolName = some tn)
    (h5 : e.data.confirmationType = some ct) (h6 : e.data.timestamp = some ts) :
    (process_event e s).2 = true ∧
    lookupA tcid (process_event e s).1.tool_calls =
      (lookupA tcid s.tool_calls).map (fun r =>
        { r with confirmations := some ((r.confirmations.getD []) ++
            [{ id := cid, toolCallId := tcid, toolName := tn, confirmationType := ct,
               timestamp := ts, event := e.event, callId := e.data.callId.getD "",
               promptId := e.data.promptId.getD "" }]) }) ∧
    (lookupA tcid s.tool_calls = none → (process_event e s).1.tool_calls = s.tool_calls) := by
  have hne1 : e.etype ≠ "llm_call" := by rw [h1]; decide
  have hne2 : e.etype ≠ "tool_call" := by rw [h1]; decide
  have hne3 : e.etype ≠ "embedding_call" := by rw [h1]; decide
  simp only [process_event, if_neg hne1, if_neg hne2, if_neg hne3, if_pos h1]
  simp only [process_user_confirmation_event, h2, h3, h4, h5, h6]
  cases hl : lookupA tcid s.tool_calls with
  | none =>
    simp [hl]
  | some r =>
    simp [hl, lookupA_updateA]

/-- C1 witness: applying the amended theorem to the concrete confirmation
`evConf1` against the state after ingesting `evTool9`. -/
theorem c1_confirmation_attach_witness :
    lookupA "t9" (process_event evConf1 (load_trace_data [evTool9]).1).1.tool_calls =
      (lookupA "t9" (load_trace_data [evTool9]).1.tool_calls).map (fun r =>
        { r with confirmations := some ((r.confirmations.getD []) ++
            [{ id := "c1", toolCallId := "t9", toolName := "grep",
               confirmationType := "info", timestamp := 5, event := evConf1.event,
               callId := evConf1.data.callId.getD "",
               promptId := evConf1.data.promptId.getD "" }]) }) :=
  (c1_confirmation_attach evConf1 (load_trace_data [evTool9]).1
    "c1" "t9" "grep" "info" 5 rfl rfl rfl rfl rfl rfl).2.1

/-! Claim C2 -/

/-- C2 counterexample: the first event of `[evLlmNoId, evTool9]` lacks the
required `id`; ingestion aborts — `load_trace_data` returns `False` and the
well-formed tool event `t9` after it is never processed, so registry state
for other call ids is NOT "unchanged after processing that event" in the
claimed continue-on sense. -/
theorem c2_counterexample :
    (load_trace_data [evLlmNoId, evTool9]).2 = false ∧
    lookupA "t9" (load_trace_data [evLlmNoId, evTool9]).1.tool_calls = none := by decide

/-- C2 (amended): an llm event whose payload lacks the required `id` raises
a `KeyError` that escapes to the outer `except` of `load_trace_data`:
ingestion of the remainder of the stream is aborted with a failure result;
the event is still appended to the `events` trail and all registry state
accumulated before it is kept unchanged. -/
theorem c2_missing_id_aborts (s : State) (rest : List Event) (e : Event)
    (h1 : e.etype = "llm_call") (h2 : e.data.id = none) :
    loadAux s (e :: rest) = ({ s with events := s.events ++ [e] }, false) := by
  simp [loadAux, process_event, h1, process_llm_event, h2]

/-- C2 witness: the amended theorem applied at the initial state, the
malformed event `evLlmNoId` and the pending stream `[evTool9]`. -/
theorem c2_missing_id_aborts_witness :
    loadAux initState [evLlmNoId, evTool9] =
      ({ initState with events := initState.events ++ [evLlmNoId] }, false) :=
  c2_missing_id_aborts initState [evTool9] evLlmNoId rfl rfl

/-! Claim C3 -/

/-- C3 counterexample: ingesting the split-protocol pair exactly as the
claim writes it aborts on the start event (its payload lacks the required
`model` field), yielding NO record `m1` at all — not a record with
`startTime=0, endTime=200, duration=200, tokens=50`. -/
theorem c3_counterexample :
    lookupA "m1" (load_trace_data [evLlmStart, evLlmEnd]).1.llm_calls = none ∧
    (load_trace_data [evLlmStart, evLlmEnd]).2 = false := by decide

/-- C3 (amended): the registry does not support the split protocol.  With
the payloads as written, ingestion aborts on the start event's missing
`model`/`status` fields and no `m1` record exists.  Even when `model` and
`status` are supplied, `start`/`end` phase events update only the status
and the audit trail: after the enriched pair, record `m1` still has
`start_time = end_time = duration = none` and `tokens = 0` — timing and
token fields are set only by `completed`/`error` events. -/
theorem c3_split_not_supported :
    (lookupA "m1" (load_trace_data [evLlmStartFull, evLlmEndFull]).1.llm_calls).map
      (fun r => (r.start_time, r.end_time, r.duration, r.tokens, r.status)) =
    some (none, none, none, 0, "completed") := by decide

/-! Claim C7 -/

/-- C7 counterexample: ingesting the single fused event exactly as the
claim writes it (payload without a `status` field) raises `KeyError` on the
required `data['status']` access: the Tool registry stays empty and loading
reports failure, instead of containing record `t1`. -/
theorem c7_counterexample :
    (load_trace_data [evTool1]).1.tool_calls = [] ∧
    (load_trace_data [evTool1]).2 = false := by decide

/-- C7 (amended): with `status:"completed"` added to the payload, the single
fused event yields a Tool registry containing exactly the record `t1` with
status `"completed"` and duration `500`, and the record is timeline-eligible:
the Timeline Builder's output is exactly its segment. -/
theorem c7_fused_tool_event :
    (load_trace_data [evTool1Status]).1.tool_calls.map (fun p => p.1) = ["t1"] ∧
    (lookupA "t1" (load_trace_data [evTool1Status]).1.tool_calls).map
      (fun r => (r.status, r.duration)) = some ("completed", some 500) ∧
    (ganttData (load_trace_data [evTool1Status]).1).map
      (fun g => (g.start, g.finish, g.duration, g.typ, g.status)) =
      [(1000, 1500, 500, "Tool", "completed")] := by decide

/-! Claim C4, counterexample part -/

/-- C4 counterexample: after the fused terminal event `evLlm4a`
(`duration=500`, `totalTokens=50`, `endTime=200`), re-ingesting a terminal
event for the same id with those fields ABSENT (`evLlm4b`) resets
`duration` to `0`, `tokens` to `0` and `end_time` to the default
`startTime` — absence does not keep the previously stored values. -/
theorem c4_counterexample :
    (lookupA "x" (load_trace_data [evLlm4a, evLlm4b]).1.llm_calls).map
      (fun r => (r.start_time, r.end_time, r.duration, r.tokens)) =
    some (some 100, some 100, some 0, 0) := by decide

/-! Claim C5, counterexample part -/

/-- C5 counterexample: two tool records with the same start instant, created
in stream order `"b"` (duration 100) then `"a"` (duration 200).  The claim's
tie-break "category then id" would put `"a"` first; the actual output keeps
registry insertion order, `"b"` first. -/
theorem c5_counterexample :
    (ganttData (load_trace_data [evToolB, evToolA]).1).map
      (fun g => (g.task, g.start, g.typ, g.duration, g.y)) =
      [("🔧 Bb", 1000, "Tool", 100, 0), ("🔧 Aa", 1000, "Tool", 200, 1)] := by decide

/-- C4 (amended): a field present in a terminal event's payload always
overwrites the stored value, but absence preserves the stored value only
for the presence-guarded fields (`requestText`, `responseText`, `error`):
a terminal event unconditionally rewrites `start_time`, `end_time`,
`duration` and `tokens`, substituting the defaults (`startTime`, `0`) when
the payload field is absent, so absence of those fields resets previously
stored values instead of keeping them. -/
theorem c4_merge_rule (e : Event) (s : State) (x st : String) (t : Int)
    (hid : e.data.id = some x) (hst : e.data.status = some st)
    (ht : e.data.startTime = some t)
    (hev : e.event = "completed" ∨ e.event = "error")
    (hex : (lookupA x s.llm_calls).isSome = true) :
    (process_llm_event e s).2 = true ∧
    lookupA x (process_llm_event e s).1.llm_calls =
      (lookupA x s.llm_calls).map (fun r =>
        { r with events := r.events ++ [e], status := st, start_time := some t,
                 end_time := some (e.data.endTime.getD t),
                 duration := some (e.data.duration.getD 0),
                 tokens := e.data.totalTokens.getD 0,
                 request_text := e.data.requestText.getD r.request_text,
                 response_text := e.data.responseText.getD r.response_text,
                 error := match e.data.error with
                          | some q => if q = "" then r.error else q
                          | none => r.error }) := by
  rw [Option.isSome_iff_exists] at hex
  obtain ⟨r, hl⟩ := hex
  have hterm : (e.event = "completed" ∨ e.event = "error") = True := eq_true hev
  simp only [process_llm_event, hid, hl, llmUpdate, hst, hterm, if_true, ht]
  refine ⟨trivial, ?_⟩
  simp only [lookupA_updateA, if_pos rfl, hl, Option.map_some', Option.map_map]
  rcases hq : e.data.requestText with _ | q <;>
    rcases hp : e.data.responseText with _ | p <;>
      rcases herr : e.data.error with _ | w <;>
        simp [llmTerminalUpdate, hq, hp, herr] <;> split_ifs <;> rfl

/-- C4 witness: the amended theorem applied to the second terminal event
`evLlm4b` against the state after `evLlm4a`. -/
theorem c4_merge_rule_witness :
    (process_llm_event evLlm4b (load_trace_data [evLlm4a]).1).2 = true ∧
    lookupA "x" (process_llm_event evLlm4b (load_trace_data [evLlm4a]).1).1.llm_calls =
      (lookupA "x" (load_trace_data [evLlm4a]).1.llm_calls).map (fun r =>
        { r with events := r.events ++ [evLlm4b], status := "completed",
                 start_time := some 100,
                 end_time := some (evLlm4b.data.endTime.getD 100),
                 duration := some (evLlm4b.data.duration.getD 0),
                 tokens := evLlm4b.data.totalTokens.getD 0,
                 request_text := evLlm4b.data.requestText.getD r.request_text,
                 response_text := evLlm4b.data.responseText.getD r.response_text,
                 error := match evLlm4b.data.error with
                          | some q => if q = "" then r.error else q
                          | none => r.error }) :=
  c4_merge_rule evLlm4b (load_trace_data [evLlm4a]).1 "x" "completed" 100
    rfl rfl rfl (Or.inl rfl) (by decide)

/-! Claim C5, amended part: ordering and display ranks of the Timeline
Builder's output. -/

theorem map_start_assignY (n : Nat) (l : List Segment) :
    (assignY n l).map (fun g => g.start) = l.map (fun g => g.start) := by
  induction l generalizing n with
  | nil => rfl
  | cons x xs ih => simp [assignY, ih]

theorem map_y_assignY (n : Nat) (l : List Segment) :
    (assignY n l).map (fun g => g.y) = List.range' n l.length := by
  induction l generalizing n with
  | nil => rfl
  | cons x xs ih => simp [assignY, ih, List.range']

theorem length_assignY (n : Nat) (l : List Segment) :
    (assignY n l).length = l.length := by
  induction l generalizing n with
  | nil => rfl
  | cons x xs ih => simp [assignY, ih]

theorem mem_insSeg (a x : Segment) (l : List Segment) :
    a ∈ insSeg x l ↔ a = x ∨ a ∈ l := by
  induction l with
  | nil => simp [insSeg]
  | cons y ys ih =>
    by_cases h : y.start < x.start
    · rw [insSeg, if_pos h]
      simp only [List.mem_cons, ih]
      tauto
    · rw [insSeg, if_neg h]
      simp only [List.mem_cons]

theorem pairwise_insSeg (x : Segment) (l : List Segment)
    (h : List.Pairwise (fun a b => a.start ≤ b.start) l) :
    List.Pairwise (fun a b => a.start ≤ b.start) (insSeg x l) := by
  induction l with
  | nil => simp [insSeg]
  | cons y ys ih =>
    rcases List.pairwise_cons.mp h with ⟨hy, hys⟩
    by_cases hxy : y.start < x.start
    · rw [insSeg, if_pos hxy]
      refine List.pairwise_cons.mpr ⟨?_, ih hys⟩
      intro z hz
      rcases (mem_insSeg z x ys).mp hz with rfl | hz'
      · exact le_of_lt hxy
      · exact hy z hz'
    · rw [insSeg, if_neg hxy]
      refine List.pairwise_cons.mpr ⟨?_, h⟩
      intro z hz
      rcases List.mem_cons.mp hz with rfl | hz'
      · exact le_of_not_lt hxy
      · exact le_trans (le_of_not_lt hxy) (hy z hz')

theorem pairwise_sortByStart (l : List Segment) :
    List.Pairwise (fun a b => a.start ≤ b.start) (sortByStart l) := by
  induction l with
  | nil => simp [sortByStart]
  | cons x xs ih => exact pairwise_insSeg x (sortByStart xs) ih

theorem pairwise_assignY (n : Nat) (l : List Segment)
    (h : List.Pairwise (fun a b => a.start ≤ b.start) l) :
    List.Pairwise (fun a b => a.start ≤ b.start) (assignY n l) := by
  have h1 : List.Pairwise (fun a b : Int => a ≤ b) (l.map (fun g => g.start)) :=
    List.pairwise_map.mpr h
  rw [← map_start_assignY n l] at h1
  exact List.pairwise_map.mp h1

/-- C5 (amended): the Timeline Builder's output is sorted by segment start
ascending, and the display rank (`Y`) of each segment equals its position
in the sorted sequence.  Ties are broken by the stable sort's preservation
of construction order — the category blocks (LLM, Tool, Embedding) in that
order and registry insertion order inside a block — not by id; the output
is a pure function of the registries, hence deterministic. -/
theorem c5_sorted_and_ranked (s : State) :
    List.Pairwise (fun a b => a.start ≤ b.start) (ganttData s) ∧
    (ganttData s).map (fun g => g.y) = List.range (ganttData s).length := by
  unfold ganttData
  constructor
  · exact pairwise_assignY _ _ (pairwise_sortByStart _)
  · rw [map_y_assignY, length_assignY, List.range_eq_range']

/-! Claim C8 -/

theorem foldl_count_eq_countP {α : Type} (p : α → Bool) (l : List α) (n : Nat) :
    l.foldl (fun acc x => if p x then acc + 1 else acc) n = n + l.countP p := by
  induction l generalizing n with
  | nil => simp
  | cons x xs ih =>
    by_cases h : p x <;> (simp [List.countP_cons, h, ih]; try omega)

/-- C8: the Consistency Checker reports an anomaly exactly when the number
of Model records whose response text contains the `functionCall` marker
exceeds the number of Tool records; the reported pair is then
`(expected, observed)` = (marker-bearing Model records, Tool records),
together with their difference; otherwise it reports nothing. -/
theorem c8_missing_events_report (s : State) :
    analyze_missing_events s =
      (if s.tool_calls.length <
          s.llm_calls.countP (fun p => containsFunctionCall p.2.response_text)
       then some (s.llm_calls.countP (fun p => containsFunctionCall p.2.response_text),
                  s.tool_calls.length,
                  s.llm_calls.countP (fun p => containsFunctionCall p.2.response_text)
                    - s.tool_calls.length)
       else none) := by
  unfold analyze_missing_events
  rw [foldl_count_eq_countP]
  simp

/-! Claim C10 -/

/-- C10: timeline eligibility is decided by Python truthiness, not key
presence: a record whose recorded start or end instant equals `0` is
excluded from the Timeline Builder's output even though both instants are
set, in all three categories. -/
theorem c10_zero_instant_excluded :
    (∀ p : String × LlmCall,
      p.2.start_time = some 0 ∨ p.2.end_time = some 0 → llmSeg p = none) ∧
    (∀ p : String × ToolCall,
      p.2.start_time = some 0 ∨ p.2.end_time = some 0 → toolSeg p = none) ∧
    (∀ p : String × EmbeddingCall,
      p.2.start_time = some 0 ∨ p.2.end_time = some 0 → embSeg p = none) := by
  refine ⟨?_, ?_, ?_⟩ <;> intro p h <;> rcases h with h | h <;>
    simp [llmSeg, toolSeg, embSeg, truthyInt, h]

/-- C10 witness: all three category exclusions at concrete records whose
start or end instant is set to `0`. -/
theorem c10_zero_instant_excluded_witness :
    llmSeg ("L", c10LlmRec) = none ∧ toolSeg ("T", c10ToolRec) = none ∧
    embSeg ("E", c10EmbRec) = none :=
  ⟨c10_zero_instant_excluded.1 ("L", c10LlmRec) (Or.inl rfl),
   c10_zero_instant_excluded.2.1 ("T", c10ToolRec) (Or.inr rfl),
   c10_zero_instant_excluded.2.2 ("E", c10EmbRec) (Or.inl rfl)⟩

/-! Claim C9 -/

theorem updateA_updateA {α : Type} (k : String) (f g : α → α) (l : List (String × α)) :
    updateA k f (updateA k g l) = updateA k (fun v => f (g v)) l := by
  induction l with
  | nil => rfl
  | cons p rest ih =>
    obtain ⟨k', v⟩ := p
    by_cases h : k' = k <;> simp [updateA, h, ih]

theorem updateA_congr {α : Type} (k : String) (f g : α → α) (l : List (String × α))
    (h : ∀ v, f v = g v) : updateA k f l = updateA k g l := by
  induction l with
  | nil => rfl
  | cons p rest ih =>
    obtain ⟨k', v⟩ := p
    by_cases hk : k' = k <;> simp [updateA, hk, ih, h]

/-- `llmUpdate` only rewrites the record stored under `cid`, by `llmApply`;
every other component of the state is untouched (this covers the failure
branches as well, whose partial mutations are a prefix of `llmApply`). -/
theorem llmUpdate_state (cid : String) (e : Event) (s : State) :
    (llmUpdate cid e s).1 = { s with llm_calls := updateA cid (llmApply e) s.llm_calls } := by
  cases hst : e.data.status with
  | none =>
    simp only [llmUpdate, hst]
    congr 1
    exact updateA_congr _ _ _ _ (fun c => by simp [llmApply, hst])
  | some st =>
    by_cases hev : e.event = "completed" ∨ e.event = "error"
    · cases hte : e.data.startTime with
      | none =>
        simp only [llmUpdate, hst, if_pos hev, hte]
        rw [updateA_updateA]
        congr 1
        exact updateA_congr _ _ _ _ (fun c => by simp [llmApply, hst, hev, hte])
      | some t =>
        simp only [llmUpdate, hst, if_pos hev, hte]
        rw [updateA_updateA, updateA_updateA]
        congr 1
        exact updateA_congr _ _ _ _ (fun c => by simp [llmApply, hst, hev, hte])
    · simp only [llmUpdate, hst, if_neg hev]
      rw [updateA_updateA]
      congr 1
      exact updateA_congr _ _ _ _ (fun c => by simp [llmApply, hst, hev])

theorem llmUpdate_ok (cid : String) (e : Event) (s : State)
    (hst : e.data.status.isSome = true)
    (hterm : (e.event = "completed" ∨ e.event = "error") → e.data.startTime.isSome = true) :
    (llmUpdate cid e s).2 = true := by
  rw [Option.isSome_iff_exists] at hst
  obtain ⟨st, hst'⟩ := hst
  by_cases hev : e.event = "completed" ∨ e.event = "error"
  · have := hterm hev
    rw [Option.isSome_iff_exists] at this
    obtain ⟨t, ht'⟩ := this
    simp [llmUpdate, hst', if_pos hev, ht']
  · simp [llmUpdate, hst', if_neg hev]

/-- Effect of one well-formed llm event on the llm registry: success, and
the record stored under the event's id becomes `llmAbs` of its previous
(possibly absent) value; all other ids are untouched. -/
theorem process_llm_wf (e : Event) (s : State) (cid : String)
    (hid : e.data.id = some cid) (hm : e.data.model.isSome = true)
    (hst : e.data.status.isSome = true)
    (hterm : (e.event = "completed" ∨ e.event = "error") → e.data.startTime.isSome = true) :
    (process_llm_event e s).2 = true ∧
    ∀ x, lookupA x (process_llm_event e s).1.llm_calls =
      if cid = x then some (llmAbs e (lookupA x s.llm_calls)) else lookupA x s.llm_calls := by
  have hm' := hm
  rw [Option.isSome_iff_exists] at hm'
  obtain ⟨m, hmEq⟩ := hm'
  have hst' := hst
  rw [Option.isSome_iff_exists] at hst'
  obtain ⟨st, hstEq⟩ := hst'
  cases hl : lookupA cid s.llm_calls with
  | some c =>
    simp only [process_llm_event, hid, hl]
    refine ⟨llmUpdate_ok _ _ _ hst hterm, ?_⟩
    intro x
    have h1 : (llmUpdate cid e s).1.llm_calls = updateA cid (llmApply e) s.llm_calls := by
      rw [llmUpdate_state]
    rw [h1, lookupA_updateA]
    by_cases hx : cid = x
    · subst hx
      rw [hl]
      simp [llmAbs]
    · simp [hx]
  | none =>
    simp only [process_llm_event, hid, hl, hmEq, hstEq]
    refine ⟨llmUpdate_ok _ _ _ hst hterm, ?_⟩
    intro x
    have h1 : (llmUpdate cid e
        { s with llm_calls := s.llm_calls ++ [(cid, llmCreate cid m st e.data)] }).1.llm_calls =
        updateA cid (llmApply e) (s.llm_calls ++ [(cid, llmCreate cid m st e.data)]) := by
      rw [llmUpdate_state]
    rw [h1, lookupA_updateA]
    by_cases hx : cid = x
    · subst hx
      rw [if_pos rfl, lookupA_append_single, hl]
      simp [llmAbs, hid, hmEq, hstEq]
    · rw [if_neg hx, if_neg hx, lookupA_append_single]
      cases h2 : lookupA x s.llm_calls with
      | some w => rfl
      | none => simp [hx]

/-- Over a stream of well-formed llm events, the final record under any id
is the fold of `llmAbs` over exactly the subsequence of events carrying
that id. -/
theorem loadAux_llm_fold (evs : List Event) (h : ∀ e ∈ evs, WFllm e) :
    ∀ s x, lookupA x ((loadAux s evs).1).llm_calls =
      List.foldl (fun acc e => some (llmAbs e acc)) (lookupA x s.llm_calls)
        (evs.filter (fun e => e.data.id == some x)) := by
  induction evs with
  | nil => intro s x; rfl
  | cons e rest ih =>
    intro s x
    obtain ⟨hty, hidS, hm, hst, hterm⟩ := h e (List.mem_cons_self e rest)
    have hidS' := hidS
    rw [Option.isSome_iff_exists] at hidS'
    obtain ⟨cid, hid⟩ := hidS'
    have hrest : ∀ e' ∈ rest, WFllm e' := fun e' he' => h e' (List.mem_cons_of_mem e he')
    have hframe : ({ s with events := s.events ++ [e] } : State).llm_calls = s.llm_calls := rfl
    have hp := process_llm_wf e { s with events := s.events ++ [e] } cid hid hm hst hterm
    have hdisp : process_event e { s with events := s.events ++ [e] } =
        process_llm_event e { s with events := s.events ++ [e] } := by
      simp [process_event, hty]
    rw [loadAux]
    rcases hrun : process_event e { s with events := s.events ++ [e] } with ⟨s2, ok⟩
    rw [hdisp] at hrun
    have hok : ok = true := by
      have := hp.1
      rw [hrun] at this
      exact this
    subst hok
    simp only []
    rw [ih hrest s2 x]
    have hs2 : lookupA x s2.llm_calls =
        if cid = x then some (llmAbs e (lookupA x s.llm_calls)) else lookupA x s.llm_calls := by
      have := hp.2 x
      rw [hrun] at this
      simpa [hframe] using this
    by_cases hx : cid = x
    · subst hx
      have hfil : (e :: rest).filter (fun e' => e'.data.id == some cid) =
          e :: rest.filter (fun e' => e'.data.id == some cid) := by
        simp [List.filter, hid]
      rw [hfil, List.foldl_cons, hs2, if_pos rfl]
    · have hbx : (cid == x) = false := by
        simp [hx]
      have hfil : (e :: rest).filter (fun e' => e'.data.id == some x) =
          rest.filter (fun e' => e'.data.id == some x) := by
        simp only [List.filter, hid]
        rw [show ((some cid == some x) = false) from by simp [hx]]
      rw [hfil, hs2, if_neg hx]

theorem filter_id_nil_of_not_mem (x : String) (evs : List Event)
    (h : x ∉ idsOf evs) : evs.filter (fun e => e.data.id == some x) = [] := by
  rw [List.filter_eq_nil_iff]
  intro e he hbeq
  apply h
  have hid : e.data.id = some x := by
    cases hq : e.data.id with
    | none =>
      rw [hq] at hbeq
      simp at hbeq
    | some i =>
      rw [hq] at hbeq
      have hix : i = x := by simpa using hbeq
      rw [hix]
  exact List.mem_filterMap.mpr ⟨e, he, hid⟩

/-- C9 counterexample: `[evTool9, evConf1]` and `[evConf1, evTool9]` are
permutations of one another preserving the relative order of events sharing
a call id (each id occurs once), yet the final registries differ: tool
record `t9` carries confirmation `c1` in the first order and has no
`confirmations` sequence at all in the second. -/
theorem c9_counterexample :
    ((lookupA "t9" (load_trace_data [evTool9, evConf1]).1.tool_calls).map
      (fun r => r.confirmations.map (fun l => l.map (fun c0 => c0.id)))) = some (some ["c1"]) ∧
    ((lookupA "t9" (load_trace_data [evConf1, evTool9]).1.tool_calls).map
      (fun r => r.confirmations.map (fun l => l.map (fun c0 => c0.id)))) = some none := by decide

/-- C9 (amended): order-independence across different ids holds for the
llm registry proper: for two streams of well-formed llm events in which
every id's subsequence of events is identical, the final record stored
under every id is identical.  (It fails for confirmation linkage — a
confirmation and its target tool call carry different ids, and attaching
depends on their relative order, as the counterexample shows — and the
registries' key insertion order also follows stream order.) -/
theorem c9_per_id_order (evs1 evs2 : List Event)
    (h1 : ∀ e ∈ evs1, WFllm e) (h2 : ∀ e ∈ evs2, WFllm e)
    (h3 : ∀ x ∈ idsOf evs1 ++ idsOf evs2,
      evs1.filter (fun e => e.data.id == some x) = evs2.filter (fun e => e.data.id == some x)) :
    ∀ x, lookupA x (load_trace_data evs1).1.llm_calls =
      lookupA x (load_trace_data evs2).1.llm_calls := by
  intro x
  have l1 := loadAux_llm_fold evs1 h1 initState x
  have l2 := loadAux_llm_fold evs2 h2 initState x
  have hload1 : (load_trace_data evs1).1 = (loadAux initState evs1).1 := rfl
  have hload2 : (load_trace_data evs2).1 = (loadAux initState evs2).1 := rfl
  rw [hload1, hload2, l1, l2]
  by_cases hx : x ∈ idsOf evs1 ++ idsOf evs2
  · rw [h3 x hx]
  · rw [filter_id_nil_of_not_mem x evs1 (fun hmem => hx (List.mem_append_left _ hmem)),
        filter_id_nil_of_not_mem x evs2 (fun hmem => hx (List.mem_append_right _ hmem))]

/-- C9 witness: swapping the order of two well-formed llm events with
different ids leaves the final record of id `"a"` unchanged. -/
theorem c9_per_id_order_witness :
    lookupA "a" (load_trace_data [evLlmA, evLlmB]).1.llm_calls =
      lookupA "a" (load_trace_data [evLlmB, evLlmA]).1.llm_calls :=
  c9_per_id_order [evLlmA, evLlmB] [evLlmB, evLlmA]
    (by decide) (by decide) (by decide) "a"

/-! Claim C6 -/

theorem toolUpdate_state (cid : String) (e : Event) (s : State) :
    (toolUpdate cid e s).1 = { s with tool_calls := updateA cid (toolApply e) s.tool_calls } := by
  cases hst : e.data.status with
  | none =>
    simp only [toolUpdate, hst]
    congr 1
    exact updateA_congr _ _ _ _ (fun c => by simp [toolApply, hst])
  | some st =>
    by_cases hev : e.event = "completed" ∨ e.event = "cancelled" ∨ e.event = "error"
    · cases hte : e.data.startTime with
      | none =>
        simp only [toolUpdate, hst, if_pos hev, hte]
        rw [updateA_updateA]
        congr 1
        exact updateA_congr _ _ _ _ (fun c => by simp [toolApply, hst, hev, hte])
      | some t =>
        simp only [toolUpdate, hst, if_pos hev, hte]
        rw [updateA_updateA, updateA_updateA]
        congr 1
        exact updateA_congr _ _ _ _ (fun c => by simp [toolApply, hst, hev, hte])
    · simp only [toolUpdate, hst, if_neg hev]
      rw [updateA_updateA]
      congr 1
      exact updateA_congr _ _ _ _ (fun c => by simp [toolApply, hst, hev])

theorem embUpdate_state (cid : String) (e : Event) (s : State) :
    (embUpdate cid e s).1 =
      { s with embedding_calls := updateA cid (embApply e) s.embedding_calls } := by
  cases hst : e.data.status with
  | none =>
    simp only [embUpdate, hst]
    congr 1
    exact updateA_congr _ _ _ _ (fun c => by simp [embApply, hst])
  | some st =>
    by_cases hev : e.event = "completed" ∨ e.event = "error"
    · cases hte : e.data.startTime with
      | none =>
        simp only [embUpdate, hst, if_pos hev, hte]
        rw [updateA_updateA]
        congr 1
        exact updateA_congr _ _ _ _ (fun c => by simp [embApply, hst, hev, hte])
      | some t =>
        simp only [embUpdate, hst, if_pos hev, hte]
        rw [updateA_updateA, updateA_updateA]
        congr 1
        exact updateA_congr _ _ _ _ (fun c => by simp [embApply, hst, hev, hte])
    · simp only [embUpdate, hst, if_neg hev]
      rw [updateA_updateA]
      congr 1
      exact updateA_congr _ _ _ _ (fun c => by simp [embApply, hst, hev])

theorem process_llm_state (e : Event) (s : State) :
    ∃ l, (process_llm_event e s).1 = { s with llm_calls := l } := by
  unfold process_llm_event
  repeat' split
  all_goals first
    | exact ⟨_, by rw [llmUpdate_state]⟩
    | exact ⟨s.llm_calls, rfl⟩

theorem process_tool_state (e : Event) (s : State) :
    ∃ l, (process_tool_event e s).1 = { s with tool_calls := l } := by
  unfold process_tool_event
  repeat' split
  all_goals first
    | exact ⟨_, by rw [toolUpdate_state]⟩
    | exact ⟨s.tool_calls, rfl⟩

theorem process_emb_state (e : Event) (s : State) :
    ∃ l, (process_embedding_event e s).1 = { s with embedding_calls := l } := by
  unfold process_embedding_event
  repeat' split
  all_goals first
    | exact ⟨_, by rw [embUpdate_state]⟩
    | exact ⟨s.embedding_calls, rfl⟩

theorem process_conf_state (e : Event) (s : State) :
    (process_user_confirmation_event e s).1.llm_calls = s.llm_calls ∧
    (process_user_confirmation_event e s).1.embedding_calls = s.embedding_calls ∧
    ((process_user_confirmation_event e s).1.tool_calls = s.tool_calls ∨
      ∃ tcid r0, (process_user_confirmation_event e s).1.tool_calls =
        updateA tcid (confApply r0) s.tool_calls) := by
  unfold process_user_confirmation_event
  cases hid : e.data.id with
  | none => exact ⟨rfl, rfl, Or.inl rfl⟩
  | some cid =>
    cases htc : e.data.toolCallId with
    | none => exact ⟨rfl, rfl, Or.inl rfl⟩
    | some tcid =>
      cases htn : e.data.toolName with
      | none => exact ⟨rfl, rfl, Or.inl rfl⟩
      | some tn =>
        cases hct : e.data.confirmationType with
        | none => exact ⟨rfl, rfl, Or.inl rfl⟩
        | some ct =>
          cases hts : e.data.timestamp with
          | none => exact ⟨rfl, rfl, Or.inl rfl⟩
          | some ts =>
            by_cases hq : (lookupA tcid s.tool_calls).isSome = true
            · simp only [if_pos hq]
              exact ⟨trivial, trivial, Or.inr ⟨tcid, _, rfl⟩⟩
            · simp only [if_neg hq]
              exact ⟨trivial, trivial, Or.inl trivial⟩

theorem llmApply_events (e : Event) (c : LlmCall) :
    (llmApply e c).events = c.events ++ [e] := by
  unfold llmApply llmTerminalUpdate
  repeat' split
  all_goals rfl

theorem llmApply_start_time (e : Event) (c : LlmCall)
    (h : ¬(e.event = "completed" ∨ e.event = "error")) :
    (llmApply e c).start_time = c.start_time := by
  unfold llmApply
  cases e.data.status with
  | none => rfl
  | some st => simp [if_neg h]

theorem toolApply_events (e : Event) (c : ToolCall) :
    (toolApply e c).events = c.events ++ [e] := by
  unfold toolApply toolTerminalUpdate
  repeat' split
  all_goals rfl

theorem toolApply_start_time (e : Event) (c : ToolCall)
    (h : ¬(e.event = "completed" ∨ e.event = "cancelled" ∨ e.event = "error")) :
    (toolApply e c).start_time = c.start_time := by
  unfold toolApply
  cases e.data.status with
  | none => rfl
  | some st => simp [if_neg h]

theorem embApply_events (e : Event) (c : EmbeddingCall) :
    (embApply e c).events = c.events ++ [e] := by
  unfold embApply embTerminalUpdate
  repeat' split
  all_goals rfl

theorem embApply_start_time (e : Event) (c : EmbeddingCall)
    (h : ¬(e.event = "completed" ∨ e.event = "error")) :
    (embApply e c).start_time = c.start_time := by
  unfold embApply
  cases e.data.status with
  | none => rfl
  | some st => simp [if_neg h]

theorem llmInv_updateA (cid : String) (e : Event) (l : List (String × LlmCall))
    (hInv : llmInvL l) : llmInvL (updateA cid (llmApply e) l) := by
  intro x r hr hd
  rw [lookupA_updateA] at hr
  by_cases hx : cid = x
  · rw [if_pos hx] at hr
    cases hc : lookupA x l with
    | none => rw [hc] at hr; cases hr
    | some c =>
      rw [hc, Option.map_some'] at hr
      have hrec : r = llmApply e c := (Option.some.inj hr).symm
      have hmem : e ∈ r.events := by
        rw [hrec, llmApply_events]
        simp
      have hnt := hd e hmem
      have hcd : ∀ e' ∈ c.events, ¬(e'.event = "completed" ∨ e'.event = "error") := by
        intro e' he'
        apply hd e'
        rw [hrec, llmApply_events]
        simp [he']
      rw [hrec, llmApply_start_time e c hnt]
      exact hInv x c hc hcd
  · rw [if_neg hx] at hr
    exact hInv x r hr hd

theorem llmInv_append (cid m st : String) (d : EventData) (l : List (String × LlmCall))
    (hInv : llmInvL l) : llmInvL (l ++ [(cid, llmCreate cid m st d)]) := by
  intro x r hr hd
  rw [lookupA_append_single] at hr
  cases hc : lookupA x l with
  | some w =>
    rw [hc] at hr
    have hr' : some w = some r := hr
    exact hInv x r (by rw [hc]; exact hr') hd
  | none =>
    rw [hc] at hr
    by_cases hx : cid = x
    · rw [if_pos hx] at hr
      have : r = llmCreate cid m st d := (Option.some.inj hr).symm
      rw [this]
      rfl
    · rw [if_neg hx] at hr
      cases hr

theorem toolInv_updateA (cid : String) (e : Event) (l : List (String × ToolCall))
    (hInv : toolInvL l) : toolInvL (updateA cid (toolApply e) l) := by
  intro x r hr hd
  rw [lookupA_updateA] at hr
  by_cases hx : cid = x
  · rw [if_pos hx] at hr
    cases hc : lookupA x l with
    | none => rw [hc] at hr; cases hr
    | some c =>
      rw [hc, Option.map_some'] at hr
      have hrec : r = toolApply e c := (Option.some.inj hr).symm
      have hmem : e ∈ r.events := by
        rw [hrec, toolApply_events]
        simp
      have hnt := hd e hmem
      have hcd : ∀ e' ∈ c.events,
          ¬(e'.event = "completed" ∨ e'.event = "cancelled" ∨ e'.event = "error") := by
        intro e' he'
        apply hd e'
        rw [hrec, toolApply_events]
        simp [he']
      rw [hrec, toolApply_start_time e c hnt]
      exact hInv x c hc hcd
  · rw [if_neg hx] at hr
    exact hInv x r hr hd

theorem toolInv_append (cid tn st : String) (d : EventData) (l : List (String × ToolCall))
    (hInv : toolInvL l) : toolInvL (l ++ [(cid, toolCreate cid tn st d)]) := by
  intro x r hr hd
  rw [lookupA_append_single] at hr
  cases hc : lookupA x l with
  | some w =>
    rw [hc] at hr
    have hr' : some w = some r := hr
    exact hInv x r (by rw [hc]; exact hr') hd
  | none =>
    rw [hc] at hr
    by_cases hx : cid = x
    · rw [if_pos hx] at hr
      have : r = toolCreate cid tn st d := (Option.some.inj hr).symm
      rw [this]
      rfl
    · rw [if_neg hx] at hr
      cases hr

theorem toolInv_confApply (tcid : String) (r0 : Confirmation) (l : List (String × ToolCall))
    (hInv : toolInvL l) : toolInvL (updateA tcid (confApply r0) l) := by
  intro x r hr hd
  rw [lookupA_updateA] at hr
  by_cases hx : tcid = x
  · rw [if_pos hx] at hr
    cases hc : lookupA x l with
    | none => rw [hc] at hr; cases hr
    | some c =>
      rw [hc, Option.map_some'] at hr
      have hrec : r = confApply r0 c := (Option.some.inj hr).symm
      have hce : (confApply r0 c).events = c.events := rfl
      have hcs : (confApply r0 c).start_time = c.start_time := rfl
      rw [hrec, hcs]
      refine hInv x c hc ?_
      intro e' he'
      apply hd e'
      rw [hrec, hce]
      exact he'
  · rw [if_neg hx] at hr
    exact hInv x r hr hd

theorem embInv_updateA (cid : String) (e : Event) (l : List (String × EmbeddingCall))
    (hInv : embInvL l) : embInvL (updateA cid (embApply e) l) := by
  intro x r hr hd
  rw [lookupA_updateA] at hr
  by_cases hx : cid = x
  · rw [if_pos hx] at hr
    cases hc : lookupA x l with
    | none => rw [hc] at hr; cases hr
    | some c =>
      rw [hc, Option.map_some'] at hr
      have hrec : r = embApply e c := (Option.some.inj hr).symm
      have hmem : e ∈ r.events := by
        rw [hrec, embApply_events]
        simp
      have hnt := hd e hmem
      have hcd : ∀ e' ∈ c.events, ¬(e'.event = "completed" ∨ e'.event = "error") := by
        intro e' he'
        apply hd e'
        rw [hrec, embApply_events]
        simp [he']
      rw [hrec, embApply_start_time e c hnt]
      exact hInv x c hc hcd
  · rw [if_neg hx] at hr
    exact hInv x r hr hd

theorem embInv_append (cid m st : String) (d : EventData) (l : List (String × EmbeddingCall))
    (hInv : embInvL l) : embInvL (l ++ [(cid, embCreate cid m st d)]) := by
  intro x r hr hd
  rw [lookupA_append_single] at hr
  cases hc : lookupA x l with
  | some w =>
    rw [hc] at hr
    have hr' : some w = some r := hr
    exact hInv x r (by rw [hc]; exact hr') hd
  | none =>
    rw [hc] at hr
    by_cases hx : cid = x
    · rw [if_pos hx] at hr
      have : r = embCreate cid m st d := (Option.some.inj hr).symm
      rw [this]
      rfl
    · rw [if_neg hx] at hr
      cases hr

theorem llmInv_process (e : Event) (s : State) (h : llmInvL s.llm_calls) :
    llmInvL (process_llm_event e s).1.llm_calls := by
  unfold process_llm_event
  repeat' split
  all_goals first
    | exact h
    | (rw [llmUpdate_state]
       first
        | exact llmInv_updateA _ _ _ h
        | exact llmInv_updateA _ _ _ (llmInv_append _ _ _ _ _ h))

theorem toolInv_process (e : Event) (s : State) (h : toolInvL s.tool_calls) :
    toolInvL (process_tool_event e s).1.tool_calls := by
  unfold process_tool_event
  repeat' split
  all_goals first
    | exact h
    | (rw [toolUpdate_state]
       first
        | exact toolInv_updateA _ _ _ h
        | exact toolInv_updateA _ _ _ (toolInv_append _ _ _ _ _ h))

theorem embInv_process (e : Event) (s : State) (h : embInvL s.embedding_calls) :
    embInvL (process_embedding_event e s).1.embedding_calls := by
  unfold process_embedding_event
  repeat' split
  all_goals first
    | exact h
    | (rw [embUpdate_state]
       first
        | exact embInv_updateA _ _ _ h
        | exact embInv_updateA _ _ _ (embInv_append _ _ _ _ _ h))

theorem inv_process_event (e : Event) (s : State)
    (h1 : llmInvL s.llm_calls) (h2 : toolInvL s.tool_calls)
    (h3 : embInvL s.embedding_calls) :
    llmInvL (process_event e s).1.llm_calls ∧
    toolInvL (process_event e s).1.tool_calls ∧
    embInvL (process_event e s).1.embedding_calls := by
  unfold process_event
  split_ifs with t1 t2 t3 t4
  · obtain ⟨l, hl⟩ := process_llm_state e s
    refine ⟨llmInv_process e s h1, ?_, ?_⟩
    · rw [hl]; exact h2
    · rw [hl]; exact h3
  · obtain ⟨l, hl⟩ := process_tool_state e s
    refine ⟨?_, toolInv_process e s h2, ?_⟩
    · rw [hl]; exact h1
    · rw [hl]; exact h3
  · obtain ⟨l, hl⟩ := process_emb_state e s
    refine ⟨?_, ?_, embInv_process e s h3⟩
    · rw [hl]; exact h1
    · rw [hl]; exact h2
  · obtain ⟨hllm, hemb, htool⟩ := process_conf_state e s
    refine ⟨?_, ?_, ?_⟩
    · rw [hllm]; exact h1
    · rcases htool with h | ⟨tcid, r0, h⟩
      · rw [h]; exact h2
      · rw [h]; exact toolInv_confApply _ _ _ h2
    · rw [hemb]; exact h3
  · exact ⟨h1, h2, h3⟩

theorem inv_loadAux (evs : List Event) : ∀ s : State,
    llmInvL s.llm_calls → toolInvL s.tool_calls → embInvL s.embedding_calls →
    llmInvL (loadAux s evs).1.llm_calls ∧ toolInvL (loadAux s evs).1.tool_calls ∧
    embInvL (loadAux s evs).1.embedding_calls := by
  induction evs with
  | nil => exact fun s h1 h2 h3 => ⟨h1, h2, h3⟩
  | cons e rest ih =>
    intro s h1 h2 h3
    rw [loadAux]
    have hstep := inv_process_event e { s with events := s.events ++ [e] } h1 h2 h3
    rcases hrun : process_event e { s with events := s.events ++ [e] } with ⟨s2, ok⟩
    rw [hrun] at hstep
    cases ok
    · exact hstep
    · exact ih s2 hstep.1 hstep.2.1 hstep.2.2

theorem lookupA_pos {α : Type} (x : String) (l : List (String × α)) (r : α)
    (h : lookupA x l = some r) : 0 < l.length := by
  cases l with
  | nil => cases h
  | cons p rest => simp

/-- C6: a call record whose recorded events are all non-terminal (only
start-phase events were received) never resolves a start instant, so it is
excluded from the Timeline Builder's output; yet the per-category total
printed by `print_summary` counts every registry entry, that record
included.  Holds for all three categories. -/
theorem c6_dangling_records (evs : List Event) :
    (∀ x r, lookupA x (load_trace_data evs).1.llm_calls = some r →
      (∀ e ∈ r.events, ¬(e.event = "completed" ∨ e.event = "error")) →
      r.start_time = none ∧ llmSeg (x, r) = none ∧
        0 < summaryLlmCount (load_trace_data evs).1) ∧
    (∀ x r, lookupA x (load_trace_data evs).1.tool_calls = some r →
      (∀ e ∈ r.events, ¬(e.event = "completed" ∨ e.event = "cancelled" ∨ e.event = "error")) →
      r.start_time = none ∧ toolSeg (x, r) = none ∧
        0 < summaryToolCount (load_trace_data evs).1) ∧
    (∀ x r, lookupA x (load_trace_data evs).1.embedding_calls = some r →
      (∀ e ∈ r.events, ¬(e.event = "completed" ∨ e.event = "error")) →
      r.start_time = none ∧ embSeg (x, r) = none ∧
        0 < summaryEmbeddingCount (load_trace_data evs).1) := by
  have hinit1 : llmInvL initState.llm_calls := by intro x r hr; cases hr
  have hinit2 : toolInvL initState.tool_calls := by intro x r hr; cases hr
  have hinit3 : embInvL initState.embedding_calls := by intro x r hr; cases hr
  obtain ⟨H1, H2, H3⟩ := inv_loadAux evs initState hinit1 hinit2 hinit3
  have hload : (load_trace_data evs).1 = (loadAux initState evs).1 := rfl
  refine ⟨?_, ?_, ?_⟩
  · intro x r hr hd
    rw [hload] at hr ⊢
    have hst := H1 x r hr hd
    refine ⟨hst, ?_, ?_⟩
    · simp [llmSeg, truthyInt, hst]
    · exact lookupA_pos x _ r hr
  · intro x r hr hd
    rw [hload] at hr ⊢
    have hst := H2 x r hr hd
    refine ⟨hst, ?_, ?_⟩
    · simp [toolSeg, truthyInt, hst]
    · exact lookupA_pos x _ r hr
  · intro x r hr hd
    rw [hload] at hr ⊢
    have hst := H3 x r hr hd
    refine ⟨hst, ?_, ?_⟩
    · simp [embSeg, truthyInt, hst]
    · exact lookupA_pos x _ r hr

/-- C6 witness: the single start event `evLlmA` leaves record `"a"` with no
start instant; it is excluded from the timeline but counted in the summary
total. -/
theorem c6_dangling_records_witness :
    c6Rec.start_time = none ∧ llmSeg ("a", c6Rec) = none ∧
    0 < summaryLlmCount (load_trace_data [evLlmA]).1 :=
  (c6_dangling_records [evLlmA]).1 "a" c6Rec (by decide) (by decide)
